import Mathlib

/-
Verification of the BookDNA transform-embed-index-sync pipeline.

Shallow embedding conventions:
* Python strings are sequences of Unicode code points, embedded as `List Char`.
  String literals are written as `"...".toList`.
* Python floats are idealized as exact rationals (`ℚ`); the FAISS vector
  stage, whose only irrational operation is the square root inside L2
  normalization, is idealized over the reals (`ℝ`).
* Missing values (pandas `NaN` in a text column) are `Option.none`.
* Code that can raise is embedded in `Except String`, the error string naming
  the Python exception class.
-/

deriving instance DecidableEq for Except

/-! ### Python string primitives (scripts use str.split, str.strip, str.join,
     slicing and len; these are embedded over `List Char`) -/

/-- One step of splitting on whitespace: accumulates maximal non-whitespace
runs, starting a fresh (possibly empty) run at each whitespace character. -/
def wsFold (c : Char) (acc : List (List Char)) : List (List Char) :=
  if c.isWhitespace then [] :: acc
  else match acc with
    | [] => [[c]]
    | t :: ts => (c :: t) :: ts

/-- Python `str.split()` with no separator: maximal runs of non-whitespace
characters; leading, trailing and repeated whitespace produce no empty
pieces. -/
def pySplitWs (l : List Char) : List (List Char) :=
  (l.foldr wsFold []).filter (fun t => t ≠ [])

/-- Python `sep.join(pieces)`: pieces interleaved with the separator. -/
def pyJoin (sep : List Char) : List (List Char) → List Char
  | [] => []
  | [x] => x
  | x :: y :: xs => x ++ sep ++ pyJoin sep (y :: xs)

/-- Python `str.split(sep)` for a one-character separator: split at every
occurrence, keeping empty pieces (so the result is never empty). -/
def pySplitOnChar (sep : Char) (l : List Char) : List (List Char) :=
  l.foldr
    (fun c acc =>
      if c = sep then [] :: acc
      else match acc with
        | [] => [[c]]
        | t :: ts => (c :: t) :: ts)
    [[]]

/-- Python `str.strip()`: drop leading and trailing whitespace. -/
def pyStrip (l : List Char) : List Char :=
  ((l.dropWhile Char.isWhitespace).reverse.dropWhile Char.isWhitespace).reverse

/-- Digit-string value, or `none` if the character list is empty or holds a
non-digit. -/
def digitsVal (cs : List Char) : Option ℕ :=
  if cs ≠ [] ∧ cs.all Char.isDigit then
    some (cs.foldl (fun n c => 10 * n + (c.toNat - 48)) 0)
  else none

/-- Python `int(s)` on a decimal string: surrounding whitespace is ignored, an
optional single sign precedes the digits; anything else raises (modelled as
`none`).  Restriction of the model: underscore digit grouping and non-ASCII
digits, which CPython also accepts, are not modelled; no claim depends on
them. -/
def pyInt (s : List Char) : Option ℤ :=
  match pyStrip s with
  | '+' :: rest => (digitsVal rest).map Int.ofNat
  | '-' :: rest => (digitsVal rest).map (fun n => -(n : ℤ))
  | cs => (digitsVal cs).map Int.ofNat

/-! ### Record Normalizer: clean_text and safe_parse_list
     (src/scripts/preprocess_data.py lines 18-37; the optimized script has
     the identical definitions) -/

/-- Embedding of `clean_text` on a string that is present: `str(text).strip()`
followed by collapsing internal whitespace runs, written in the source as
one `' '.join(text.split())` (joining the split already strips the ends, and
the source's early return for the empty string agrees with the general
branch). -/
def cleanStr (l : List Char) : List Char := pyJoin [' '] (pySplitWs l)

/-- Embedding of `clean_text` on a nullable column value: `pd.isna(text)`
yields the empty string. -/
def clean_text : Option (List Char) → List Char
  | none => []
  | some s => cleanStr s

/-- Value domain for the raw `authors` / `categories` cells that
`safe_parse_list` receives: a missing value, a string, or (defensively, per
the source's `isinstance(val, list)` branch) an actual Python list. -/
inductive PyVal where
  | nan : PyVal
  | str (s : List Char) : PyVal
  | list (l : List PyVal) : PyVal

/-- Result of `ast.literal_eval` as far as `safe_parse_list` inspects it: a
list (whose elements the model restricts to strings; the pipeline only ever
joins them as strings) or a non-list literal given by its `str()` image. -/
inductive PyLit where
  | lst (l : List (List Char)) : PyLit
  | scalarStr (s : List Char) : PyLit

/-- Scalar missing-value test used elementwise by `pd.isna` on a list. -/
def isnaElem : PyVal → Bool
  | .nan => true
  | _ => false

mutual
/-- Truth value of one array cell holding this value: a nested list keeps
flattening, a scalar contributes its missing-value flag. -/
def valTruthy : PyVal → Except (List Char) Bool
  | .list l => listTruthy l
  | x => .ok (isnaElem x)
/-- Truth value of the boolean array `pd.isna(l)` for a list `l`: pandas
converts the list with `np.asarray(..., dtype=object)`, so nested lists
flatten into the array's shape, and Python's truth test raises `ValueError`
whenever the total element count differs from one (for size ≥ 2 in every
NumPy version; for size 0 in NumPy ≥ 1.25, which this model follows).  An
outer list of length ≥ 2 always has total size ≥ 2 or 0, hence raises; a
singleton recurses into its element, so the test succeeds exactly on a
nested chain of singletons ending in a scalar, returning that scalar's
missing-value flag. -/
def listTruthy : List PyVal → Except (List Char) Bool
  | [x] => valTruthy x
  | _ => .error ("ValueError").toList
end

/-- Truth value of `pd.isna(val)` as used in the source's
`if pd.isna(val) or val == ''`.  For a scalar, `pd.isna` is a plain Bool;
for a list, the truth test of the elementwise boolean array applies. -/
def pdIsnaTruthy : PyVal → Except (List Char) Bool
  | .nan => .ok true
  | .str _ => .ok false
  | .list l => listTruthy l

/-- Python `val == ''` on the raw cell value. -/
def pyEqEmptyStr : PyVal → Bool
  | .str s => s = ([] : List Char)
  | _ => false

/-- Python `str(val)` for the values `safe_parse_list` can wrap. -/
def pyStrOfVal : PyVal → List Char
  | .nan => ("nan").toList
  | .str s => s
  | .list _ => ("list").toList

/-- Embedding of `safe_parse_list` (preprocess_data.py lines 18-28).
`litEval` is the external `ast.literal_eval`, abstracted as a parameter; a
`.error` result stands for any exception it raises (all caught by the bare
`except`).  The source first evaluates `pd.isna(val) or val == ''`, then
passes lists through, then tries `ast.literal_eval`. -/
def safe_parse_list (litEval : List Char → Except Unit PyLit) (val : PyVal) :
    Except (List Char) (List PyVal) := do
  let na ← pdIsnaTruthy val
  if na || pyEqEmptyStr val then
    return []
  else
    match val with
    | .list l => return l
    | v =>
      match litEval (pyStrOfVal v) with
      | .ok (.lst l) => return l.map PyVal.str
      | .ok (.scalarStr t) => return [PyVal.str t]
      | .error _ => return [PyVal.str (pyStrOfVal v)]

/-! ### Helpfulness parsing (preprocess_data.py lines 55-66 and
     preprocess_data_optimized.py lines 48-63) -/

/-- Shared core of both helpfulness parsers: given the string form, if it
contains a slash, split on the slash, parse the first two pieces with
`int(...)`, and return `helpful / total` when `total > 0`; any parse failure
(caught by the source's `except`) and every other case yields `0.0`. -/
def helpFromStr (s : List Char) : ℚ :=
  if s.contains '/' then
    match pySplitOnChar '/' s with
    | p0 :: p1 :: _ =>
      match pyInt p0, pyInt p1 with
      | some h, some t => if t > 0 then (h : ℚ) / (t : ℚ) else 0
      | _, _ => 0
    | _ => 0
  else 0

/-- Row-at-a-time helpfulness score (preprocess_data.py lines 55-66): the
score column is initialized to `0.0` and overwritten only when
`str(row['review/helpfulness'])` contains a slash, both parts parse as ints,
and the total is positive; `str(NaN)` is the slash-free string `"nan"`. -/
def rowHelp (h : Option (List Char)) : ℚ :=
  helpFromStr (match h with | none => ("nan").toList | some s => s)

/-- Embedding of `parse_helpfulness` (preprocess_data_optimized.py lines
48-60): missing or empty input short-circuits to `0.0`, otherwise the same
slash logic as the row path. -/
def parse_helpfulness (h : Option (List Char)) : ℚ :=
  match h with
  | none => 0
  | some s => if s = [] then 0 else helpFromStr s

/-! ### Review aggregation, row-at-a-time (preprocess_data.py lines 39-85) -/

/-- One review row of Books_rating.csv, restricted to the columns the
pipeline reads.  Every nullable column, including `score`, carries `none`
for NaN: the two scripts treat missing scores differently (`len` versus
pandas' non-null `count`; a kept NaN mean versus `fillna(0.0)`), so missing
scores must be representable. -/
structure RawReview where
  title : List Char
  score : Option ℚ
  helpfulness : Option (List Char)
  summary : Option (List Char)
  text : Option (List Char)
deriving DecidableEq

/-- Pandas `Series.mean()` with its default `skipna=True` over a float
column: the mean of the non-missing entries, or NaN (here `none`) when every
entry is missing. -/
def seriesMean (xs : List (Option ℚ)) : Option ℚ :=
  if xs.filterMap id = [] then none
  else some ((xs.filterMap id).sum / ((xs.filterMap id).length : ℚ))

/-- Aggregate of one title's reviews as built by `aggregate_reviews`.
`avg_score` is a Python float, possibly NaN (`none`). -/
structure Agg where
  review_count : ℕ
  avg_score : Option ℚ
  review_summary : List Char
  top_reviews : List (List Char)
deriving DecidableEq

/-- Helpfulness key of an index-decorated review, as the row path computes it
into the `helpfulness_score` column. -/
def hKey (p : ℕ × RawReview) : ℚ := rowHelp p.2.helpfulness

/-- Embedding of pandas `nlargest(3, 'helpfulness_score')` with its default
`keep='first'`: the first three rows when ordered by the column descending,
ties resolved by original position (a stable descending sort, then take 3).
Reviews are decorated with their original position. -/
def nlargest3 (l : List (ℕ × RawReview)) : List (ℕ × RawReview) :=
  (List.insertionSort (fun a b => hKey b ≤ hKey a) l).take 3

/-- Snippets contributed by one selected review (preprocess_data.py lines
72-78): its cleaned summary if non-empty, then the first 200 characters of
its cleaned text if that text is non-empty and under 500 characters. -/
def snippetsOfReview (r : RawReview) : List (List Char) :=
  (if clean_text r.summary ≠ [] then [clean_text r.summary] else []) ++
  (if clean_text r.text ≠ [] ∧ (clean_text r.text).length < 500 then
    [(clean_text r.text).take 200] else [])

/-- Embedding of `aggregate_reviews` (preprocess_data.py lines 39-85) applied
to the rows whose `Title` equals the given book's title, in file order.  An
empty group returns the explicit zero dictionary; otherwise the row count
(`len(book_reviews)`, missing-score rows included), the skipna mean of the
scores (NaN when all are missing, kept by `float(avg_score)`), the snippet
texts of the top-3-by-helpfulness reviews, the summary as the space-join of
the first 5 snippets, and the first 3 snippets as `top_reviews`. -/
def aggregate_reviews (grp : List RawReview) : Agg :=
  if grp = [] then ⟨0, some 0, [], []⟩
  else
    ⟨grp.length,
     seriesMean (grp.map RawReview.score),
     pyJoin [' '] (((nlargest3 grp.enum).flatMap (fun p => snippetsOfReview p.2)).take 5),
     ((nlargest3 grp.enum).flatMap (fun p => snippetsOfReview p.2)).take 3⟩

/-! ### Review aggregation, vectorized (preprocess_data_optimized.py lines
     40-85) -/

/-- One row of the vectorized script's per-title aggregate. -/
structure VAgg where
  review_count : ℕ
  avg_score : Option ℚ
  review_summary : List Char
deriving DecidableEq

/-- Embedding of one group's row of `aggregate_reviews_vectorized`
(preprocess_data_optimized.py lines 40-85): pandas' aggregations over the
score column are `count`, the number of non-missing scores, and `mean`, the
skipna mean (NaN when every score is missing); `review_summary` joins the
cleaned first three non-null summaries, a single space, and the
cleaned-then-truncated first three non-null texts, and strips the result.
The `helpfulness_score` column is also computed (via `parse_helpfulness`)
but only its max is aggregated and that column is then dropped, so it does
not influence the output. -/
def aggregate_reviews_vectorized (grp : List RawReview) : VAgg :=
  ⟨(grp.filterMap RawReview.score).length,
   seriesMean (grp.map RawReview.score),
   pyStrip (pyJoin [' '] (((grp.filterMap RawReview.summary).take 3).map cleanStr)
     ++ [' ']
     ++ pyJoin [' '] (((grp.filterMap RawReview.text).take 3).map
          (fun t => (cleanStr t).take 200)))⟩

/-! ### Feature Compositor (create_embedding_text, preprocess_data.py lines
     164-191; the optimized file's copy at lines 161-184 builds the identical
     parts list via extend) -/

/-- Embedding of `create_embedding_text` once authors and categories are
known to be lists of strings: the parts list receives the title twice and
the description three times when truthy (non-empty), the joined authors and
joined categories when the *lists* are truthy (non-empty), and the review
summary twice when truthy; the parts are then space-joined. -/
def create_embedding_text (t d : List Char) (aus cats : List (List Char))
    (rs : List Char) : List Char :=
  pyJoin [' ']
    ((if t ≠ [] then [t, t] else []) ++
     (if d ≠ [] then [d, d, d] else []) ++
     (if aus ≠ [] then [pyJoin [' '] aus] else []) ++
     (if cats ≠ [] then [pyJoin [' '] cats] else []) ++
     (if rs ≠ [] then [rs, rs] else []))

/-- Python `str` coercion required by `' '.join`: a non-string element makes
the join raise `TypeError`. -/
def pyValStr : PyVal → Except (List Char) (List Char)
  | .str s => .ok s
  | _ => .error ("TypeError").toList

/-- Python `' '.join(l)` over parsed cell values. -/
def joinVals (l : List PyVal) : Except (List Char) (List Char) :=
  (l.mapM pyValStr).map (pyJoin [' '])

/-- Exception-aware `create_embedding_text` over the parsed (still untyped)
author and category lists, exactly as the pipeline calls it. -/
def createEmbeddingTextE (t d : List Char) (aus cats : List PyVal)
    (rs : List Char) : Except (List Char) (List Char) := do
  let pa ← if aus.isEmpty then pure [] else (joinVals aus).map (fun j => [j])
  let pc ← if cats.isEmpty then pure [] else (joinVals cats).map (fun j => [j])
  pure (pyJoin [' ']
    ((if t ≠ [] then [t, t] else []) ++
     (if d ≠ [] then [d, d, d] else []) ++
     pa ++ pc ++
     (if rs ≠ [] then [rs, rs] else [])))

/-! ### The two preprocessing pipelines end to end
     (preprocess_data.py main, lines 87-231;
     preprocess_data_optimized.py main, lines 87-226) -/

/-- One row of books_data.csv, restricted to the columns that feed the
CanonicalRecord fields the claims compare (id, title, description,
review_count, avg_rating, review_summary, embedding_text).  The remaining
columns (image, links, publisher, published date, ratings count) are copied
through identically by both scripts and are omitted.  A NaN `Title` is not
modelled: it is cleaned to the empty string and dropped by the filter in
both pipelines. -/
structure RawBook where
  title : List Char
  description : Option (List Char)
  authors : PyVal
  categories : PyVal

/-- Per-book intermediate row after cleaning, aggregation and embedding-text
assembly, before filtering. -/
structure PreRecord where
  title_clean : List Char
  description_clean : List Char
  review_count : ℕ
  avg_score : Option ℚ
  review_summary : List Char
  embedding_text : List Char

/-- CanonicalRecord fields the claims compare. -/
structure CanonRecord where
  id : ℕ
  title : List Char
  description : List Char
  review_count : ℕ
  avg_rating : Option ℚ
  review_summary : List Char
  embedding_text : List Char
deriving DecidableEq

/-- Filtering policy of both scripts (preprocess_data.py lines 199-203):
keep a book iff its cleaned title is non-empty and its cleaned description
or review summary is non-empty. -/
def keepBook (p : PreRecord) : Bool :=
  !p.title_clean.isEmpty &&
    (!p.description_clean.isEmpty || !p.review_summary.isEmpty)

/-- Filter-and-re-enumerate step shared by both scripts (preprocess_data.py
lines 199-211): surviving rows, in order, receive `id = range(len(...))`. -/
def finalizeBooks (pres : List PreRecord) : List CanonRecord :=
  (pres.filter keepBook).enum.map
    (fun p => ⟨p.1, p.2.title_clean, p.2.description_clean, p.2.review_count,
               p.2.avg_score, p.2.review_summary, p.2.embedding_text⟩)

/-- Row-at-a-time processing of one book (preprocess_data.py main): parse the
list cells, clean the texts, aggregate this title's reviews via
`aggregate_reviews` when the title has reviews (the `reviewed_titles`
membership test), and assemble the embedding text.  The source applies each
step column-wise over the whole frame; the steps are independent per row, so
the row-wise composition is the same function. -/
def rowPre (litEval : List Char → Except Unit PyLit) (reviews : List RawReview)
    (b : RawBook) : Except (List Char) PreRecord := do
  let aus ← safe_parse_list litEval b.authors
  let cats ← safe_parse_list litEval b.categories
  let t := cleanStr b.title
  let d := clean_text b.description
  let grp := reviews.filter (fun r => r.title == b.title)
  let agg := if grp.isEmpty then (⟨0, some 0, [], []⟩ : Agg) else aggregate_reviews grp
  let et ← createEmbeddingTextE t d aus cats agg.review_summary
  pure ⟨t, d, agg.review_count, agg.avg_score, agg.review_summary, et⟩

/-- Exception-propagating map over the books table, as the scripts' per-row
`apply` loops behave: the first raised exception aborts the run. -/
def mapME {α β ε : Type} (f : α → Except ε β) : List α → Except ε (List β)
  | [] => .ok []
  | x :: xs => do
    let y ← f x
    let ys ← mapME f xs
    pure (y :: ys)

/-- The row-at-a-time preprocessing pipeline on an in-memory books table and
reviews table, producing the CanonicalRecord list written to
books_clean.csv. -/
def rowPipeline (litEval : List Char → Except Unit PyLit)
    (books : List RawBook) (reviews : List RawReview) :
    Except (List Char) (List CanonRecord) := do
  let pres ← mapME (rowPre litEval reviews) books
  pure (finalizeBooks pres)

/-- Vectorized processing of one book (preprocess_data_optimized.py main):
identical cleaning and parsing; the per-title aggregate comes from the
groupby in `aggregate_reviews_vectorized` (groups keep file order within a
title), left-merged on `Title`.  The fillna pass after the merge acts on the
whole columns: an unmatched book's NaN count, score and summary become 0,
0.0 and the empty string, and `fillna(0.0)` also rewrites a matched group's
NaN mean (all scores missing) to 0.0, so the stored average is never NaN on
this path. -/
def vecPre (litEval : List Char → Except Unit PyLit) (reviews : List RawReview)
    (b : RawBook) : Except (List Char) PreRecord := do
  let aus ← safe_parse_list litEval b.authors
  let cats ← safe_parse_list litEval b.categories
  let t := cleanStr b.title
  let d := clean_text b.description
  let grp := reviews.filter (fun r => r.title == b.title)
  let va := if grp.isEmpty then (⟨0, none, []⟩ : VAgg)
            else aggregate_reviews_vectorized grp
  let et ← createEmbeddingTextE t d aus cats va.review_summary
  pure ⟨t, d, va.review_count, some (va.avg_score.getD 0), va.review_summary, et⟩

/-- The vectorized (grouped) preprocessing pipeline on the same tables. -/
def vecPipeline (litEval : List Char → Except Unit PyLit)
    (books : List RawBook) (reviews : List RawReview) :
    Except (List Char) (List CanonRecord) := do
  let pres ← mapME (vecPre litEval reviews) books
  pure (finalizeBooks pres)

/-- Stand-in for `ast.literal_eval` that rejects every string; used to
instantiate the abstract parser at concrete inputs whose list cells are all
NaN or plain strings. -/
def litEvalFail : List Char → Except Unit PyLit := fun _ => .error ()

/-! ### Vector Normalizer (build_faiss_index.py lines 45-48) -/

/-- Squared L2 norm of a vector over the idealized reals. -/
def l2normSqR (v : List ℝ) : ℝ := (v.map (fun x => x * x)).sum

/-- Modelled from the spec: the body of `faiss.normalize_L2`, which is
library code not present in this repository.  Per the spec (section 4.4),
each vector is scaled to unit L2 norm, with the division guarded so that a
zero-norm vector is left unchanged rather than producing NaN. -/
noncomputable def normalize_L2 (v : List ℝ) : List ℝ :=
  if l2normSqR v = 0 then v else v.map (fun x => x / Real.sqrt (l2normSqR v))

/-! ### Flat inner-product index search (build_faiss_index.py lines 55-59 and
     87-101) -/

/-- Inner product of two stored vectors (rationals: the search stage uses
only field operations and comparisons, no square roots). -/
def dotQ (v w : List ℚ) : ℚ := (List.zipWith (fun a b => a * b) v w).sum

/-- Scan of the remaining database rows keeping the best (position, score)
pair; a strictly greater score replaces the incumbent, so among equal scores
the smallest position wins. -/
def searchGo (q : List ℚ) : List (List ℚ) → ℕ × ℚ → ℕ → ℕ × ℚ
  | [], best, _ => best
  | v :: rest, best, k =>
    searchGo q rest (if best.2 < dotQ q v then (k, dotQ q v) else best) (k + 1)

/-- Modelled from the spec: `IndexFlatIP.search(q, 1)`, which is FAISS
library code not present in this repository.  Per the spec (section 4.4) the
flat index performs exact exhaustive search returning the highest
inner-product (position, score) pair, ties broken by ascending position;
`none` for an empty index. -/
def searchTop1 (db : List (List ℚ)) (q : List ℚ) : Option (ℕ × ℚ) :=
  match db with
  | [] => none
  | v :: rest => some (searchGo q rest (0, dotQ q v) 1)

/-! ### Remote vector attachment (upload_embeddings_supabase_api.py lines
     71-91) -/

/-- One row of the remote `books` table as the attachment pass sees it: the
stable `faiss_index` key, the nullable `embedding` column, and the remaining
columns (opaque here, untouched by the update). -/
structure RemoteRow where
  faiss_index : ℤ
  embedding : Option (List ℚ)
  others : List Char
deriving DecidableEq

/-- Modelled from the spec: the remote store row-update contract (spec
sections 4.5 and 6) invoked by the source as
`supabase.table('books').update({...}).eq('faiss_index', book_id)`, which is
client-library code not present in this repository.  It sets the embedding
column of every row whose `faiss_index` equals the key and leaves every
other row and column unchanged. -/
def updateEmbeddingByKey (table : List RemoteRow) (key : ℤ) (v : List ℚ) :
    List RemoteRow :=
  table.map (fun r =>
    if r.faiss_index = key then ⟨r.faiss_index, some v, r.others⟩ else r)

/-! ### Spec-side compositor, for comparison with `create_embedding_text` -/

/-- Modelled from the spec's wording for the Feature Compositor (section 4.2
and claim C6): the space-join of title twice, description three times,
joined authors, joined categories and review summary twice, in which an
empty component contributes no tokens at all. -/
def specEmbeddingText (t d : List Char) (aus cats : List (List Char))
    (rs : List Char) : List Char :=
  pyJoin [' ']
    ([t, t, d, d, d, pyJoin [' '] aus, pyJoin [' '] cats, rs, rs].filter
      (fun x => x ≠ []))

/-! ### Theorems -/

/-- C9: the remote vector-attachment operation is idempotent: updating the
embedding column of the rows keyed by `faiss_index = key` twice with the
same vector leaves the table exactly as one update does. -/
theorem updateEmbeddingByKey_idempotent (table : List RemoteRow) (key : ℤ)
    (v : List ℚ) :
    updateEmbeddingByKey (updateEmbeddingByKey table key v) key v =
      updateEmbeddingByKey table key v := by
  simp only [updateEmbeddingByKey, List.map_map]
  apply List.map_congr_left
  intro r _
  by_cases h : r.faiss_index = key <;> simp [h]

/-- Mapping a first-component-preserving function over an enumerated list
and projecting the position back out yields the dense range of indices. -/
theorem enum_map_proj_fst {α β : Type} (l : List α) (f : ℕ × α → β)
    (g : β → ℕ) (hgf : ∀ p, g (f p) = p.1) :
    (l.enum.map f).map g = List.range l.length := by
  rw [List.map_map]
  have hfun : (g ∘ f) = Prod.fst := funext fun p => hgf p
  rw [hfun, List.enum_map_fst]

/-- Mapping over an enumerated list and projecting a position-independent
part back out forgets the enumeration. -/
theorem enum_map_proj_snd {α β γ : Type} (l : List α) (f : ℕ × α → β)
    (g : β → γ) (h : α → γ) (hgf : ∀ p, g (f p) = h p.2) :
    (l.enum.map f).map g = l.map h := by
  rw [List.map_map]
  have hfun : (g ∘ f) = h ∘ Prod.snd := funext fun p => hgf p
  rw [hfun, ← List.map_map, List.enum_map_snd]

/-- C2: the shared filter-and-re-enumerate step keeps exactly the
pre-records whose cleaned title is non-empty and whose cleaned description
or review summary is non-empty, preserves their original relative order, and
assigns the survivors ids 0, 1, ..., n-1 with no gaps. -/
theorem finalize_filter_and_dense_ids (pres : List PreRecord) :
    (finalizeBooks pres).map CanonRecord.id =
      List.range (finalizeBooks pres).length ∧
    (finalizeBooks pres).map
        (fun r => (r.title, r.description, r.review_count, r.avg_rating,
                   r.review_summary, r.embedding_text)) =
      (pres.filter (fun p => !p.title_clean.isEmpty &&
          (!p.description_clean.isEmpty || !p.review_summary.isEmpty))).map
        (fun p => (p.title_clean, p.description_clean, p.review_count,
                   p.avg_score, p.review_summary, p.embedding_text)) := by
  constructor
  · have hlen : (finalizeBooks pres).length = (pres.filter keepBook).length := by
      simp [finalizeBooks, List.enum_length]
    rw [hlen]
    exact enum_map_proj_fst _ _ _ (fun p => rfl)
  · exact enum_map_proj_snd _ _ _ _ (fun p => rfl)

/-- C4: a malformed helpfulness string, one with no slash, a part that
`int(...)` rejects, or a parsed total of zero, scores exactly 0.0 in the
row-at-a-time path and in the vectorized `parse_helpfulness`. -/
theorem helpfulness_malformed_is_zero (s : List Char)
    (h : (¬ s.contains '/' = true) ∨
      ∃ p0 p1 rest, pySplitOnChar '/' s = p0 :: p1 :: rest ∧
        (pyInt p0 = none ∨ pyInt p1 = none ∨ pyInt p1 = some 0)) :
    rowHelp (some s) = 0 ∧ parse_helpfulness (some s) = 0 := by
  have hz : helpFromStr s = 0 := by
    unfold helpFromStr
    rcases h with h | ⟨p0, p1, rest, hsplit, hbad⟩
    · rw [if_neg h]
    · by_cases hc : s.contains '/' = true
      · rw [if_pos hc, hsplit]
        rcases hbad with h0 | h1 | h1 <;>
          rcases e0 : pyInt p0 with _ | a <;>
          rcases e1 : pyInt p1 with _ | b <;>
          simp_all
      · rw [if_neg hc]
  refine ⟨hz, ?_⟩
  by_cases he : s = [] <;> simp [parse_helpfulness, he, hz]

/-- C4 witness: the spec's example, helpfulness string "3/0", scores 0.0 in
both paths. -/
theorem helpfulness_three_over_zero :
    rowHelp (some ("3/0").toList) = 0 ∧
      parse_helpfulness (some ("3/0").toList) = 0 :=
  helpfulness_malformed_is_zero ("3/0").toList
    (Or.inr ⟨("3").toList, ("0").toList, [], by decide,
      Or.inr (Or.inr (by decide))⟩)

/-- C3 counterexample: a value that is already a sequence of two elements
does not pass through: the truth test of `pd.isna` on it raises ValueError,
so `safe_parse_list` raises instead of returning a sequence. -/
theorem safe_parse_list_raises_on_two_element_list :
    safe_parse_list litEvalFail
        (.list [.str ("a").toList, .str ("b").toList]) =
      .error ("ValueError").toList := rfl

/-- C3 amended: for every missing value, empty string or non-empty string,
`safe_parse_list` terminates without raising and returns a sequence (empty
for missing or empty input, the parsed list on success, the wrapped raw
value on parse failure), and a one-element sequence whose element is a
non-NaN scalar (a string) is passed through unchanged; but a sequence whose
flattened NumPy array size is not one — length other than one, or a
singleton holding a sequence of length other than one — makes the `pd.isna`
truth test raise ValueError, so sequences do not in general pass through. -/
theorem safe_parse_list_amended (litEval : List Char → Except Unit PyLit) :
    safe_parse_list litEval .nan = .ok [] ∧
    safe_parse_list litEval (.str []) = .ok [] ∧
    (∀ s, s ≠ [] → litEval s = .error () →
      safe_parse_list litEval (.str s) = .ok [.str s]) ∧
    (∀ s l, s ≠ [] → litEval s = .ok (.lst l) →
      safe_parse_list litEval (.str s) = .ok (l.map PyVal.str)) ∧
    (∀ s t, s ≠ [] → litEval s = .ok (.scalarStr t) →
      safe_parse_list litEval (.str s) = .ok [PyVal.str t]) ∧
    (∀ s : List Char,
      safe_parse_list litEval (.list [.str s]) = .ok [.str s]) := by
  refine ⟨rfl, rfl, ?_, ?_, ?_, ?_⟩
  · intro s hs hfail
    simp [safe_parse_list, pdIsnaTruthy, pyEqEmptyStr, pyStrOfVal, hs, hfail]
    rfl
  · intro s l hs hok
    simp [safe_parse_list, pdIsnaTruthy, pyEqEmptyStr, pyStrOfVal, hs, hok]
    rfl
  · intro s t hs hok
    simp [safe_parse_list, pdIsnaTruthy, pyEqEmptyStr, pyStrOfVal, hs, hok]
    rfl
  · intro s
    rfl

/-- C3 amended witness: at concrete inputs, a parse-failing non-empty string
is wrapped as a one-element sequence, and a one-element list of a non-NaN
string passes through unchanged. -/
theorem safe_parse_list_amended_witness :
    safe_parse_list litEvalFail (.str ("x").toList) =
        .ok [.str ("x").toList] ∧
      safe_parse_list litEvalFail (.list [.str ("x").toList]) =
        .ok [.str ("x").toList] :=
  ⟨(safe_parse_list_amended litEvalFail).2.2.1 ("x").toList (by decide) rfl,
   (safe_parse_list_amended litEvalFail).2.2.2.2.2 ("x").toList⟩

/-- C6 counterexample: with a non-empty title, an author list holding one
empty string, and every other field empty, `create_embedding_text` emits a
trailing empty placeholder (a dangling separator), so the output is not the
space-join of the non-empty components. -/
theorem create_embedding_text_counterexample :
    create_embedding_text ("T").toList [] [[]] [] [] ≠
      specEmbeddingText ("T").toList [] [[]] [] [] := by decide

/-- C6 amended: `create_embedding_text` equals the spec's space-join of
title twice, description three times, joined authors, joined categories and
review summary twice with empty components contributing no tokens, provided
each non-empty parsed list joins to a non-empty string (the source guards
the authors and categories components on the list being non-empty, not on
the joined string being non-empty). -/
theorem create_embedding_text_amended (t d : List Char)
    (aus cats : List (List Char)) (rs : List Char)
    (ha : aus ≠ [] → pyJoin [' '] aus ≠ [])
    (hc : cats ≠ [] → pyJoin [' '] cats ≠ []) :
    create_embedding_text t d aus cats rs = specEmbeddingText t d aus cats rs := by
  unfold create_embedding_text specEmbeddingText
  by_cases hau : aus = []
  · by_cases hct : cats = [] <;>
      by_cases ht : t = [] <;> by_cases hd : d = [] <;> by_cases hr : rs = [] <;>
      simp_all [List.filter, pyJoin]
  · have ha' := ha hau
    by_cases hct : cats = []
    · by_cases ht : t = [] <;> by_cases hd : d = [] <;> by_cases hr : rs = [] <;>
        simp_all [List.filter, pyJoin]
    · have hc' := hc hct
      by_cases ht : t = [] <;> by_cases hd : d = [] <;> by_cases hr : rs = [] <;>
        simp_all [List.filter, pyJoin]

/-- C6 amended witness: at a concrete record with non-empty title, empty
description, one non-empty author, no categories and empty summary, the
compositor output matches the spec-side join. -/
theorem create_embedding_text_amended_witness :
    create_embedding_text ("T").toList [] [("A").toList] [] [] =
      specEmbeddingText ("T").toList [] [("A").toList] [] [] :=
  create_embedding_text_amended ("T").toList [] [("A").toList] [] []
    (fun _ => by decide) (fun h => absurd rfl h)

/-- Sum of squares is non-negative. -/
theorem l2normSqR_nonneg (v : List ℝ) : 0 ≤ l2normSqR v := by
  induction v with
  | nil => simp [l2normSqR]
  | cons x xs ih =>
    have hx := mul_self_nonneg x
    simp only [l2normSqR, List.map_cons, List.sum_cons] at ih ⊢
    linarith

/-- Squared norm of a pointwise-scaled vector. -/
theorem l2normSqR_map_div (v : List ℝ) (c : ℝ) :
    l2normSqR (v.map (fun x => x / c)) = l2normSqR v / (c * c) := by
  induction v with
  | nil => simp [l2normSqR]
  | cons x xs ih =>
    simp only [l2normSqR, List.map_cons, List.map_map, List.sum_cons,
      Function.comp] at ih ⊢
    rw [ih, div_mul_div_comm, add_div]

/-- An all-zero vector has zero squared norm. -/
theorem l2normSqR_zero_of_all_zero (v : List ℝ) (h : ∀ x ∈ v, x = 0) :
    l2normSqR v = 0 := by
  induction v with
  | nil => simp [l2normSqR]
  | cons x xs ih =>
    have hx : x = 0 := h x (by simp)
    simp only [l2normSqR, List.map_cons, List.sum_cons] at ih ⊢
    rw [hx, ih fun y hy => h y (by simp [hy])]
    ring

/-- C7: the normalization step maps every vector of non-zero norm to a unit
vector (squared L2 norm exactly 1 in the idealized reals, hence L2 norm 1),
and maps an all-zero vector to itself, never to NaN or Inf (the guarded
definition is total on the reals). -/
theorem normalize_L2_unit_or_zero (v : List ℝ) :
    (l2normSqR v ≠ 0 → l2normSqR (normalize_L2 v) = 1) ∧
    ((∀ x ∈ v, x = 0) → normalize_L2 v = v) := by
  constructor
  · intro h
    rw [normalize_L2, if_neg h, l2normSqR_map_div,
      Real.mul_self_sqrt (l2normSqR_nonneg v), div_self h]
  · intro h
    rw [normalize_L2, if_pos (l2normSqR_zero_of_all_zero v h)]

/-- C7 witness: the vector (3, 4) normalizes to a unit vector, and the zero
vector normalizes to itself. -/
theorem normalize_L2_witness :
    l2normSqR (normalize_L2 [(3 : ℝ), 4]) = 1 ∧
      normalize_L2 [(0 : ℝ), 0] = [0, 0] :=
  ⟨(normalize_L2_unit_or_zero [3, 4]).1 (by norm_num [l2normSqR]),
   (normalize_L2_unit_or_zero [0, 0]).2 (by simp)⟩


/-- Joining at least two pieces with a single-space separator is never
empty. -/
theorem pyJoin_two_ne_nil (x y : List Char) (xs : List (List Char)) :
    pyJoin [' '] (x :: y :: xs) ≠ [] := by
  simp [pyJoin, List.append_eq_nil]

/-- Injectivity of a pure Except result. -/
theorem exceptPureOkInj {ε α : Type} (x y : α)
    (h : (pure x : Except ε α) = .ok y) : x = y := Except.ok.inj h

/-- An Except error is never a success. -/
theorem exceptErrorNeOk {ε α : Type} (err : ε) (y : α) :
    (Except.error err : Except ε α) ≠ .ok y := fun h => Except.noConfusion h

/-- A successful embedding-text assembly with a non-empty title starts with
that title doubled, so it is non-empty. -/
theorem createE_ok_nonempty (t d : List Char) (aus cats : List PyVal)
    (rs e : List Char) (ht : t ≠ [])
    (h : createEmbeddingTextE t d aus cats rs = .ok e) : e ≠ [] := by
  unfold createEmbeddingTextE at h
  simp only [if_pos ht, bind, Except.bind] at h
  repeat' split at h
  all_goals try exact absurd h (exceptErrorNeOk _ _)
  all_goals rw [← exceptPureOkInj _ _ h]
  all_goals exact pyJoin_two_ne_nil t t _

/-- A pre-record produced by the row path whose cleaned title is non-empty
has a non-empty embedding text. -/
theorem rowPre_embedding_nonempty (litEval : List Char → Except Unit PyLit)
    (reviews : List RawReview) (b : RawBook) (p : PreRecord)
    (h : rowPre litEval reviews b = .ok p) (ht : p.title_clean ≠ []) :
    p.embedding_text ≠ [] := by
  unfold rowPre at h
  simp only [bind, Except.bind] at h
  split at h
  · exact absurd h (exceptErrorNeOk _ _)
  · split at h
    · exact absurd h (exceptErrorNeOk _ _)
    · split at h
      · exact absurd h (exceptErrorNeOk _ _)
      · rename_i et hce
        have hp := exceptPureOkInj _ _ h
        subst hp
        exact createE_ok_nonempty _ _ _ _ _ _ ht hce

/-- Each element of a successful exception-propagating map is the successful
image of some list element. -/
theorem mapME_ok_mem {α β ε : Type} (f : α → Except ε β) :
    ∀ (l : List α) (res : List β), mapME f l = .ok res →
      ∀ y ∈ res, ∃ x, x ∈ l ∧ f x = .ok y := by
  intro l
  induction l with
  | nil =>
    intro res h y hy
    rw [mapME] at h
    rw [← Except.ok.inj h] at hy
    cases hy
  | cons a as ih =>
    intro res h y hy
    rw [mapME] at h
    simp only [bind, Except.bind] at h
    split at h
    · exact absurd h (exceptErrorNeOk _ _)
    · split at h
      · exact absurd h (exceptErrorNeOk _ _)
      · rename_i x1 fa hfa x2 frest hrest
        have hres := exceptPureOkInj _ _ h
        rw [← hres] at hy
        rcases List.mem_cons.mp hy with rfl | hy2
        · exact ⟨a, by simp, hfa⟩
        · obtain ⟨x, hx, hfx⟩ := ih frest hrest y hy2
          exact ⟨x, by simp [hx], hfx⟩

/-- C10: every record surviving the row pipeline has non-empty
embedding_text: its cleaned title is non-empty, so the embedding text holds
at least two copies of the title, and the all-zero-text case cannot arise
for pipeline-produced records. -/
theorem surviving_records_have_embedding_text
    (litEval : List Char → Except Unit PyLit) (books : List RawBook)
    (reviews : List RawReview) (out : List CanonRecord)
    (h : rowPipeline litEval books reviews = .ok out) :
    ∀ r ∈ out, r.embedding_text ≠ [] := by
  intro r hr
  unfold rowPipeline at h
  simp only [bind, Except.bind] at h
  split at h
  · exact absurd h (exceptErrorNeOk _ _)
  · rename_i pres hpres
    have hout := exceptPureOkInj _ _ h
    rw [← hout] at hr
    unfold finalizeBooks at hr
    rcases List.mem_map.mp hr with ⟨q, hq, rfl⟩
    have hq2 : q.2 ∈ pres.filter keepBook := by
      have hm := List.mem_map_of_mem Prod.snd hq
      rwa [List.enum_map_snd] at hm
    have hkeep : keepBook q.2 = true := (List.mem_filter.mp hq2).2
    have hmem : q.2 ∈ pres := (List.mem_filter.mp hq2).1
    obtain ⟨b, _, hfb⟩ := mapME_ok_mem _ books pres hpres q.2 hmem
    have ht : q.2.title_clean ≠ [] := by
      intro hnil
      rw [keepBook] at hkeep
      simp [hnil] at hkeep
    exact rowPre_embedding_nonempty litEval reviews b q.2 hfb ht

/-- C10 witness: a one-book table with title and description survives, and
its embedding text, title twice then description three times, is indeed
non-empty. -/
theorem surviving_records_witness :
    (⟨0, ("T").toList, ("d").toList, 0, some 0, [],
        ("T T d d d").toList⟩ : CanonRecord).embedding_text ≠ [] :=
  surviving_records_have_embedding_text litEvalFail
    [⟨("T").toList, some (("d").toList), .nan, .nan⟩] []
    [⟨0, ("T").toList, ("d").toList, 0, some 0, [], ("T T d d d").toList⟩]
    (by decide) _ (by decide)

/-! ### Stable top-3 selection: characterization of pandas nlargest -/

/-- Strict priority order realized by the top-3 selection: strictly higher
helpfulness wins, and among equal helpfulness the earlier original position
wins. -/
def betterRev (a b : ℕ × RawReview) : Prop :=
  hKey b < hKey a ∨ (hKey a = hKey b ∧ a.1 < b.1)

/-- Inserting an element with a smaller original position than everything
present preserves the strict priority ordering. -/
theorem pairwise_better_orderedInsert (x : ℕ × RawReview)
    (l : List (ℕ × RawReview)) (hl : l.Pairwise betterRev)
    (hx : ∀ y ∈ l, x.1 < y.1) :
    (List.orderedInsert (fun a b => hKey b ≤ hKey a) x l).Pairwise betterRev := by
  induction l with
  | nil => simp [List.orderedInsert]
  | cons y ys ih =>
    simp only [List.orderedInsert]
    by_cases hr : hKey y ≤ hKey x
    · rw [if_pos hr]
      refine List.pairwise_cons.mpr ⟨?_, hl⟩
      intro z hz
      rcases List.mem_cons.mp hz with rfl | hzz
      · rcases lt_or_eq_of_le hr with hlt | heq
        · exact Or.inl hlt
        · exact Or.inr ⟨heq.symm, hx z (by simp)⟩
      · have hyz := (List.pairwise_cons.mp hl).1 z hzz
        have hzy : hKey z ≤ hKey y := by
          rcases hyz with h1 | ⟨h1, -⟩
          · exact le_of_lt h1
          · exact le_of_eq h1.symm
        rcases lt_or_eq_of_le (le_trans hzy hr) with hlt | heq
        · exact Or.inl hlt
        · exact Or.inr ⟨heq.symm, hx z (by simp [hzz])⟩
    · rw [if_neg hr]
      refine List.pairwise_cons.mpr ⟨?_, ih (List.pairwise_cons.mp hl).2
        (fun z hz => hx z (by simp [hz]))⟩
      intro z hz
      rcases (List.mem_orderedInsert _).mp hz with rfl | hzz
      · exact Or.inl (not_le.mp hr)
      · exact (List.pairwise_cons.mp hl).1 z hzz

/-- Sorting by descending helpfulness with the non-strict comparison is
stable: on a list with strictly increasing original positions it produces a
list strictly sorted by the priority order. -/
theorem pairwise_better_insertionSort (l : List (ℕ × RawReview))
    (hl : l.Pairwise (fun a b => a.1 < b.1)) :
    (List.insertionSort (fun a b => hKey b ≤ hKey a) l).Pairwise betterRev := by
  induction l with
  | nil => simp [List.insertionSort]
  | cons a as ih =>
    simp only [List.insertionSort]
    apply pairwise_better_orderedInsert
    · exact ih (List.pairwise_cons.mp hl).2
    · intro y hy
      exact (List.pairwise_cons.mp hl).1 y
        (((List.perm_insertionSort _ as).mem_iff).mp hy)

/-- Positions in an enumerated list are strictly increasing. -/
theorem pairwise_fst_lt_enumFrom {α : Type} (n : ℕ) (l : List α) :
    (List.enumFrom n l).Pairwise (fun a b => a.1 < b.1) := by
  induction l generalizing n with
  | nil => simp
  | cons x xs ih =>
    refine List.pairwise_cons.mpr ⟨?_, ih (n + 1)⟩
    rintro ⟨i, a⟩ hy
    have := List.mem_enumFrom hy
    omega

/-- Flattening the score column: selecting the present entries of the
mapped column is selecting the present scores. -/
theorem filterMap_id_map_score (grp : List RawReview) :
    (grp.map RawReview.score).filterMap id = grp.filterMap RawReview.score := by
  induction grp with
  | nil => rfl
  | cons r rs ih => cases hr : r.score <;> simp [hr, ih]

/-- C5: on a non-empty review group, `aggregate_reviews` reports the group
size (missing-score rows included) as review_count, the mean of the
non-missing scores as avg_score (NaN, here `none`, when every score is
missing), and builds review_summary by joining at most 5 snippets
contributed, in order, by a selection `sel` that is exactly the (at most) 3
reviews of highest helpfulness with ties broken by original order: `sel` is
drawn from the enumerated group, is strictly ordered by the
helpfulness-then-position priority, and beats every review left out; each
selected review contributes its cleaned summary if non-empty and then the
first 200 characters of its cleaned text if that text is non-empty and
under 500 characters; on an empty group it returns the zero aggregate. -/
theorem aggregate_reviews_spec (grp : List RawReview) :
    (grp = [] → aggregate_reviews grp = ⟨0, some 0, [], []⟩) ∧
    (grp ≠ [] →
      ∃ sel : List (ℕ × RawReview),
        sel.length = min 3 grp.length ∧
        (∀ p ∈ sel, p ∈ grp.enum) ∧
        sel.Pairwise betterRev ∧
        (∀ p ∈ grp.enum, p ∉ sel → ∀ q ∈ sel, betterRev q p) ∧
        aggregate_reviews grp =
          ⟨grp.length,
           (if grp.filterMap RawReview.score = [] then none
            else some ((grp.filterMap RawReview.score).sum /
              ((grp.filterMap RawReview.score).length : ℚ))),
           pyJoin [' '] ((sel.flatMap (fun p => snippetsOfReview p.2)).take 5),
           (sel.flatMap (fun p => snippetsOfReview p.2)).take 3⟩) := by
  have hpair : (List.insertionSort (fun a b => hKey b ≤ hKey a)
      grp.enum).Pairwise betterRev := by
    apply pairwise_better_insertionSort
    rw [List.enum_eq_enumFrom]
    exact pairwise_fst_lt_enumFrom 0 grp
  constructor
  · intro h
    rw [aggregate_reviews, if_pos h]
  · intro hne
    refine ⟨nlargest3 grp.enum, ?_, ?_, ?_, ?_, ?_⟩
    · rw [nlargest3, List.length_take,
        (List.perm_insertionSort (fun a b => hKey b ≤ hKey a) grp.enum).length_eq,
        List.enum_length]
    · intro p hp
      exact ((List.perm_insertionSort _ _).mem_iff).mp
        ((List.take_sublist 3 _).subset hp)
    · exact List.Pairwise.sublist (List.take_sublist 3 _) hpair
    · intro p hp hps q hq
      have hmem : p ∈ List.insertionSort (fun a b => hKey b ≤ hKey a) grp.enum :=
        ((List.perm_insertionSort _ _).mem_iff).mpr hp
      rw [← List.take_append_drop 3
        (List.insertionSort (fun a b => hKey b ≤ hKey a) grp.enum)] at hmem hpair
      rcases List.mem_append.mp hmem with h1 | h1
      · exact absurd h1 hps
      · exact (List.pairwise_append.mp hpair).2.2 q hq p h1
    · rw [aggregate_reviews, if_neg hne]
      simp only [seriesMean, filterMap_id_map_score]

/-- C5 witness: the characterization applied to a concrete one-review
group. -/
theorem aggregate_reviews_spec_witness :
    ∃ sel : List (ℕ × RawReview),
      sel.length = min 3 ([(⟨("T").toList, some 5, some (("0/0").toList),
          some (("a").toList), none⟩ : RawReview)] : List RawReview).length ∧
      (∀ p ∈ sel, p ∈ ([(⟨("T").toList, some 5, some (("0/0").toList),
          some (("a").toList), none⟩ : RawReview)] : List RawReview).enum) ∧
      sel.Pairwise betterRev ∧
      (∀ p ∈ ([(⟨("T").toList, some 5, some (("0/0").toList),
          some (("a").toList), none⟩ : RawReview)] : List RawReview).enum,
        p ∉ sel → ∀ q ∈ sel, betterRev q p) ∧
      aggregate_reviews [(⟨("T").toList, some 5, some (("0/0").toList),
          some (("a").toList), none⟩ : RawReview)] =
        ⟨([(⟨("T").toList, some 5, some (("0/0").toList),
            some (("a").toList), none⟩ : RawReview)] : List RawReview).length,
         (if ([(⟨("T").toList, some 5, some (("0/0").toList),
              some (("a").toList), none⟩ : RawReview)] : List RawReview).filterMap
                RawReview.score = [] then none
          else some
            ((([(⟨("T").toList, some 5, some (("0/0").toList),
                some (("a").toList), none⟩ : RawReview)] : List RawReview).filterMap
                  RawReview.score).sum /
              ((([(⟨("T").toList, some 5, some (("0/0").toList),
                  some (("a").toList), none⟩ : RawReview)] :
                    List RawReview).filterMap RawReview.score).length : ℚ))),
         pyJoin [' '] ((sel.flatMap (fun p => snippetsOfReview p.2)).take 5),
         (sel.flatMap (fun p => snippetsOfReview p.2)).take 3⟩ :=
  (aggregate_reviews_spec _).2 (by decide)

/-! ### Inner-product search: self-match -/

/-- Cauchy-Schwarz-style bound via the binomial expansion: for equal-length
vectors, twice the inner product is at most the sum of the self inner
products. -/
theorem two_dotQ_le (v : List ℚ) :
    ∀ w : List ℚ, v.length = w.length →
      2 * dotQ v w ≤ dotQ v v + dotQ w w := by
  induction v with
  | nil =>
    intro w hw
    rw [List.length_nil] at hw
    rw [List.eq_nil_of_length_eq_zero hw.symm]
    simp [dotQ]
  | cons x xs ih =>
    intro w hw
    cases w with
    | nil => simp at hw
    | cons y ys =>
      simp only [List.length_cons, Nat.succ.injEq] at hw
      have h1 := ih ys hw
      have h2 : 2 * (x * y) ≤ x * x + y * y := by nlinarith [sq_nonneg (x - y)]
      simp only [dotQ, List.zipWith_cons_cons, List.sum_cons] at h1 ⊢
      nlinarith

/-- Equality in the bound forces the vectors to be equal. -/
theorem two_dotQ_eq_imp (v : List ℚ) :
    ∀ w : List ℚ, v.length = w.length →
      2 * dotQ v w = dotQ v v + dotQ w w → v = w := by
  induction v with
  | nil =>
    intro w hw _
    exact (List.eq_nil_of_length_eq_zero hw.symm).symm
  | cons x xs ih =>
    intro w hw heq
    cases w with
    | nil => simp at hw
    | cons y ys =>
      simp only [List.length_cons, Nat.succ.injEq] at hw
      have h1 := two_dotQ_le xs ys hw
      have h2 : 2 * (x * y) ≤ x * x + y * y := by nlinarith [sq_nonneg (x - y)]
      simp only [dotQ, List.zipWith_cons_cons, List.sum_cons] at heq
      simp only [dotQ] at h1
      have hxy : x = y := by
        have hsq : (x - y) * (x - y) = 0 := by nlinarith
        have hz := mul_self_eq_zero.mp hsq
        linarith
      have htail : 2 * dotQ xs ys = dotQ xs xs + dotQ ys ys := by
        simp only [dotQ]
        rw [hxy] at heq
        linarith
      rw [hxy, ih ys hw htail]

/-- A strictly worse incumbent is kept through rows that all score below
it. -/
theorem searchGo_keep (q : List ℚ) :
    ∀ (l : List (List ℚ)) (best : ℕ × ℚ) (k : ℕ),
      (∀ w ∈ l, dotQ q w < best.2) → searchGo q l best k = best := by
  intro l
  induction l with
  | nil => intro best k _; rfl
  | cons v rest ih =>
    intro best k h
    rw [searchGo, if_neg (not_lt.mpr (le_of_lt (h v (by simp))))]
    exact ih best (k + 1) (fun w hw => h w (by simp [hw]))

/-- Scanning past rows that all score strictly below the row `v`, the scan
settles on `v` and its score. -/
theorem searchGo_through (q v : List ℚ) (l2 : List (List ℚ))
    (h2 : ∀ w ∈ l2, dotQ q w < dotQ q v) :
    ∀ (l1 : List (List ℚ)) (best : ℕ × ℚ) (k : ℕ),
      (∀ w ∈ l1, dotQ q w < dotQ q v) → best.2 < dotQ q v →
      searchGo q (l1 ++ v :: l2) best k = (k + l1.length, dotQ q v) := by
  intro l1
  induction l1 with
  | nil =>
    intro best k _ hb
    rw [List.nil_append, searchGo, if_pos hb]
    rw [searchGo_keep q l2 (k, dotQ q v) (k + 1) (fun w hw => h2 w hw)]
    simp
  | cons w l1' ih =>
    intro best k h1 hb
    rw [List.cons_append, searchGo]
    have hb' : (if best.2 < dotQ q w then (k, dotQ q w) else best).2 < dotQ q v := by
      split
      · exact h1 w (by simp)
      · exact hb
    have harith : k + 1 + l1'.length = k + (l1'.length + 1) := by omega
    rw [ih _ (k + 1) (fun x hx => h1 x (by simp [hx])) hb', List.length_cons,
      harith]

/-- C8: in the flat inner-product index built over L2-normalized vectors
(unit self inner product) with no duplicates, searching with a stored vector
returns that vector's own position as the top-1 result with similarity
exactly 1. -/
theorem searchTop1_self_match (d1 d2 : List (List ℚ)) (v : List ℚ) (n : ℕ)
    (hlen : ∀ w ∈ d1 ++ v :: d2, w.length = n)
    (hunit : ∀ w ∈ d1 ++ v :: d2, dotQ w w = 1)
    (hnodup : (d1 ++ v :: d2).Nodup) :
    searchTop1 (d1 ++ v :: d2) v = some (d1.length, 1) := by
  have hvmem : v ∈ d1 ++ v :: d2 := by simp
  have hv : dotQ v v = 1 := hunit v hvmem
  have hstrict : ∀ w ∈ d1 ++ v :: d2, w ≠ v → dotQ v w < 1 := by
    intro w hw hwv
    have hwu : dotQ w w = 1 := hunit w hw
    have hwl : v.length = w.length := by rw [hlen v hvmem, hlen w hw]
    have hle : 2 * dotQ v w ≤ dotQ v v + dotQ w w := two_dotQ_le v w hwl
    rw [hv, hwu] at hle
    rcases lt_or_eq_of_le (by linarith : dotQ v w ≤ 1) with hlt | heqq
    · exact hlt
    · exfalso
      apply hwv
      exact (two_dotQ_eq_imp v w hwl (by rw [hv, hwu, heqq]; ring)).symm
  rw [List.nodup_append] at hnodup
  have hv1 : v ∉ d1 := fun hmem => hnodup.2.2 hmem (by simp)
  have hv2 : v ∉ d2 := (List.nodup_cons.mp hnodup.2.1).1
  have h1 : ∀ w ∈ d1, dotQ v w < 1 := fun w hw =>
    hstrict w (by simp [hw]) (fun he => hv1 (he ▸ hw))
  have h2 : ∀ w ∈ d2, dotQ v w < 1 := fun w hw =>
    hstrict w (by simp [hw]) (fun he => hv2 (he ▸ hw))
  cases d1 with
  | nil =>
    rw [List.nil_append, searchTop1, searchGo_keep v d2 (0, dotQ v v) 1
      (fun w hw => by rw [hv]; exact h2 w hw), hv]
    rfl
  | cons u d1' =>
    rw [List.cons_append, searchTop1,
      searchGo_through v v d2 (fun w hw => by rw [hv]; exact h2 w hw) d1'
        (0, dotQ v u) 1
        (fun w hw => by rw [hv]; exact h1 w (by simp [hw]))
        (by rw [hv]; exact h1 u (by simp)), hv]
    simp [List.length_cons]
    omega

/-- C8 witness: in the two-vector unit database, searching with the second
stored vector returns position 1 with similarity 1. -/
theorem searchTop1_self_match_witness :
    searchTop1 [[(1 : ℚ), 0], [0, 1]] [0, 1] = some (1, 1) :=
  searchTop1_self_match [[(1 : ℚ), 0]] [] [0, 1] 2
    (by
      intro w hw
      simp only [List.cons_append, List.nil_append, List.mem_cons,
        List.not_mem_nil, or_false, List.mem_singleton] at hw
      rcases hw with rfl | rfl <;> rfl)
    (by
      intro w hw
      simp only [List.cons_append, List.nil_append, List.mem_cons,
        List.not_mem_nil, or_false, List.mem_singleton] at hw
      rcases hw with rfl | rfl <;> norm_num [dotQ])
    (by norm_num)

/-! ### Equivalence of the two pipelines -/

/-- Concrete one-book table for comparing the two pipelines. -/
def cexBooks : List RawBook := [⟨("T").toList, some [], .nan, .nan⟩]

/-- Concrete review table: one review of the book, with an empty-vote
helpfulness string, a one-character summary and a 500-character text. -/
def cexReviews : List RawReview :=
  [⟨("T").toList, some 5, some (("0/0").toList), some (("a").toList),
    some (List.replicate 500 'x')⟩]

set_option maxRecDepth 100000 in
/-- C1 counterexample: on the concrete tables the two pipelines produce
CanonicalRecords with different review_summary fields (the row path drops
the 500-character text, the vectorized path always appends its first 200
characters), so their outputs are not identical. -/
theorem pipelines_not_equivalent :
    (rowPipeline litEvalFail cexBooks cexReviews).map
        (fun l => l.map CanonRecord.review_summary) ≠
      (vecPipeline litEvalFail cexBooks cexReviews).map
        (fun l => l.map CanonRecord.review_summary) := by decide

/-- With every score present, the non-null count is the row count. -/
theorem filterMap_score_length (grp : List RawReview)
    (h : ∀ r ∈ grp, r.score ≠ none) :
    (grp.filterMap RawReview.score).length = grp.length := by
  induction grp with
  | nil => rfl
  | cons r rs ih =>
    rcases hr : r.score with _ | q
    · exact absurd hr (h r (by simp))
    · simp [List.filterMap_cons, hr, ih (fun x hx => h x (by simp [hx]))]

/-- C1 amended: on a non-empty review group all of whose scores are
present, the two aggregation strategies agree on review_count (row count
and non-null count coincide) and both store the same non-NaN mean, so the
vectorized path's merge-stage fillna(0.0) leaves it unchanged and the
pipelines agree on review_count and avg_rating for such titles; with
missing scores the counts (len versus pandas non-null count) and stored
means (a kept NaN versus fillna 0.0) can also differ, and review_summary —
and with it embedding_text and possibly the surviving record set — can
differ because the vectorized groupby builds the summary from the first
three summaries and first three truncated texts instead of the
top-3-by-helpfulness snippet rule. -/
theorem aggregation_count_mean_agree (grp : List RawReview) (hne : grp ≠ [])
    (hscores : ∀ r ∈ grp, r.score ≠ none) :
    (aggregate_reviews grp).review_count =
        (aggregate_reviews_vectorized grp).review_count ∧
      ∃ m : ℚ, (aggregate_reviews grp).avg_score = some m ∧
        (aggregate_reviews_vectorized grp).avg_score = some m := by
  have hpres : grp.filterMap RawReview.score ≠ [] := by
    cases grp with
    | nil => exact absurd rfl hne
    | cons r rs =>
      rcases hr : r.score with _ | q
      · exact absurd hr (hscores r (by simp))
      · simp [List.filterMap_cons, hr]
  constructor
  · rw [aggregate_reviews, if_neg hne]
    exact (filterMap_score_length grp hscores).symm
  · refine ⟨(grp.filterMap RawReview.score).sum /
      ((grp.filterMap RawReview.score).length : ℚ), ?_, ?_⟩
    · rw [aggregate_reviews, if_neg hne]
      show seriesMean _ = _
      simp only [seriesMean, filterMap_id_map_score]
      rw [if_neg hpres]
    · show seriesMean _ = _
      simp only [seriesMean, filterMap_id_map_score]
      rw [if_neg hpres]

/-- Concrete one-review group with a present score, for the amended
agreement witness. -/
def wReview : RawReview :=
  ⟨("T").toList, some 5, some (("0/0").toList), some (("a").toList), none⟩

/-- C1 amended witness: at the concrete one-review group the counts agree
and both strategies store the same non-NaN mean. -/
theorem aggregation_count_mean_agree_witness :
    (aggregate_reviews [wReview]).review_count =
        (aggregate_reviews_vectorized [wReview]).review_count ∧
      ∃ m : ℚ, (aggregate_reviews [wReview]).avg_score = some m ∧
        (aggregate_reviews_vectorized [wReview]).avg_score = some m :=
  aggregation_count_mean_agree [wReview] (by decide) (by decide)
